import Mathlib

/-!
# Verification of the EyerissEmulator core

Shallow embedding of the EyerissEmulator repository (an architectural
simulator of an Eyeriss-style spatial CNN accelerator, written in Python
with numpy) and proofs about the claims of its specification.

Conventions of the embedding:

* numpy floating-point values are modelled as exact rationals (`ℚ`); the
  spec's claims are stated "within floating-point tolerance", which the
  exact model subsumes.
* a numpy row vector is a `List ℚ`; a 2-D array is a `List (List ℚ)`
  (row-major, as in the source).
* Python exceptions are modelled by the `Err` type below; an operation
  that can raise returns its partial state together with an `Option Err`
  (or an `Except Err` result where no state is observable at the raise
  point by any theorem in this file).  A raise aborts the enclosing
  iteration: mutations of earlier iterations stick, the remaining
  iterations never run.
* Python list indexing accepts negative indices (counting from the end)
  and raises `IndexError` when the index is out of range on either side;
  `pyIdx`/`pyGet` model this exactly.
* memory words: a `MemoryBlock` (src/eyeriss/src/memory/memory.py) stores
  a `words × wordSize` numpy matrix; every stored row has length
  `wordSize` (initially all zeros, from `np.zeros((words, wordSize))`).
  The word assignment `self._bits[address] = data` follows numpy
  broadcasting: a length-1 payload fills the whole `wordSize`-wide word
  with its single value, a payload of length exactly `wordSize` replaces
  the row as given, and any other payload length raises
  `ValueError: could not broadcast input array` (`Err.broadcast`).  A read
  returns the full `wordSize`-wide stored row.  Elementwise numpy
  addition (`psum + data`) broadcasts by the same rule (`pyAdd`).
-/

/-- Python exception kinds raised by the modelled code, named after the
spec's error taxonomy (section 7) where the spec has a name.  The source
raises `ValueError` for capacity violations (spec: ConfigurationError,
NotReadyError) and for address-dimensionality violations (spec:
AddressError); numpy raises `ValueError: could not broadcast input array`
at a word assignment or elementwise addition with an incompatible payload
length (`broadcast`, a raise site the spec has no name for); grid and
list indexing raise `IndexError`; attribute lookup on an object without
the attribute raises `AttributeError`.  Constructors are named by raise
site so that theorems can tell the kinds apart. -/
inductive Err where
  | configuration : Err
  | notReady : Err
  | index : Err
  | addressDim : Err
  | attribute : Err
  | broadcast : Err
  deriving DecidableEq, Repr

/-- Python list index resolution: a non-negative index `i` is valid when
`i < len`; a negative index `i` addresses `len + i` and is valid when
`-i ≤ len`.  Returns the resolved non-negative position, or `none` for an
IndexError. -/
def pyIdx (len : ℕ) (i : ℤ) : Option ℕ :=
  if 0 ≤ i then
    (if i < (len : ℤ) then some i.toNat else none)
  else
    (if -i ≤ (len : ℤ) then some (len - (-i).toNat) else none)

/-- Python list read `l[i]` with Python index semantics. -/
def pyGet {α : Type} (l : List α) (i : ℤ) : Option α :=
  match pyIdx l.length i with
  | some n => l.get? n
  | none => none

/-- Elementwise numpy addition of two rows (`psum + data` in
`PE.__call__`, PEAddPsumInstr case), with numpy's broadcasting rule:
equal lengths add elementwise, a length-1 operand is broadcast across the
other, any other combination raises
`ValueError: could not broadcast input array`. -/
def pyAdd (a b : List ℚ) : Except Err (List ℚ) :=
  if a.length = b.length then .ok (List.zipWith (fun x y => x + y) a b)
  else if b.length = 1 then .ok (a.map (fun x => x + b.headD 0))
  else if a.length = 1 then .ok (b.map (fun x => a.headD 0 + x))
  else .error .broadcast

/-! ## MemoryBlock and SPAD (src/eyeriss/src/memory/memory.py) -/

/-- MemoryBlock: a `words × wordSize` store with a read latency (seconds)
and energy per access (joules).  `bits` holds one `wordSize`-wide stored
row per word, initially all zeros
(`np.zeros((words, wordSize), dtype=np.float32)`). -/
structure MemoryBlock where
  words : ℕ
  wordSize : ℕ
  read_latency : ℚ
  energy : ℚ
  bits : List (List ℚ)
  deriving DecidableEq, Repr

/-- MemoryBlock construction: zero-initialized store. -/
def MemoryBlock.init (words wordSize : ℕ) (lat en : ℚ) : MemoryBlock :=
  ⟨words, wordSize, lat, en, List.replicate words (List.replicate wordSize 0)⟩

/-- MemoryBlock.read: returns the full `wordSize`-wide stored numpy row
at a word index.  All reads performed by the modelled algorithm use
in-range word indices (index 0 of a one-word block); the `getD` default
is never reached. -/
def MemoryBlock.read (b : MemoryBlock) (address : ℕ) : List ℚ :=
  b.bits.getD address []

/-- MemoryBlock.write: `self._bits[address] = data`, a numpy row
assignment.  numpy broadcasting accepts a payload of length 1 (the single
value fills the whole `wordSize`-wide word) or of length exactly
`wordSize` (stored as given); any other payload length raises
`ValueError: could not broadcast input array`.  All modelled calls use
in-range word indices (index 0 of a one-word block). -/
def MemoryBlock.write (b : MemoryBlock) (address : ℕ) (data : List ℚ) : Except Err MemoryBlock :=
  if data.length = 1 then
    .ok { b with bits := b.bits.set address (List.replicate b.wordSize (data.headD 0)) }
  else if data.length = b.wordSize then
    .ok { b with bits := b.bits.set address data }
  else .error .broadcast

/-- MemoryBlock.is_empty: every stored value is zero. -/
def MemoryBlock.is_empty (b : MemoryBlock) : Bool :=
  b.bits.all (fun row => row.all (fun x => decide (x = 0)))

/-- Scratchpad (SPAD): a Memory owning a list of MemoryBlocks; the SPAD
constructor builds exactly one block with the SPAD latency 1e-9 s and
energy 1e-12 J. -/
structure SPAD where
  blocks : List MemoryBlock
  deriving DecidableEq, Repr

/-- SPAD construction (`SPAD.__init__`): a single zero block. -/
def SPAD.init (words wordSize : ℕ) : SPAD :=
  ⟨[MemoryBlock.init words wordSize (1 / 1000000000) (1 / 1000000000000)]⟩

/-- SPAD.read with a 2-D `(block, word)` address.  The source first checks
`address.shape != 2` (ValueError otherwise); every PE-path instruction
carries the literal 2-D address `Address((0, 0))`, so the check is
statically satisfied and addresses are modelled as pairs.  The block
index is in range (0, of the single block) at every modelled call. -/
def SPAD.read (s : SPAD) (a : ℕ × ℕ) : List ℚ :=
  (s.blocks.getD a.1 (MemoryBlock.init 0 0 0 0)).read a.2

/-- SPAD.write with a 2-D `(block, word)` address (same conventions as
`SPAD.read`); the block write's numpy broadcast ValueError propagates. -/
def SPAD.write (s : SPAD) (a : ℕ × ℕ) (data : List ℚ) : Except Err SPAD :=
  match (s.blocks.getD a.1 (MemoryBlock.init 0 0 0 0)).write a.2 data with
  | .error e => .error e
  | .ok b => .ok ⟨s.blocks.set a.1 b⟩

/-- Memory.is_empty: every block is empty. -/
def SPAD.is_empty (s : SPAD) : Bool :=
  s.blocks.all MemoryBlock.is_empty

/-! ## Instructions and the processing element (src/eyeriss/src/pe/pe.py)

The instruction set models the variants the PE dispatches on
(src/eyeriss/src/instr/__init__.py).  The GLB read/write variants are
never sent to a PE by the orchestrator; `PE.__call__` has no branch for
them and falls through returning `None` without mutation, modelled by the
`glbOther` constructor.  The `Data` envelope only forwards `data.instr`
to the dispatch, so the envelope is not modelled separately. -/
inductive Instr where
  | terminate : Instr
  | compute : Instr
  | peWriteFilter (addr : ℕ × ℕ) (data : List ℚ) : Instr
  | peWriteIfmap (addr : ℕ × ℕ) (data : List ℚ) : Instr
  | peReadPsum (addr : ℕ × ℕ) : Instr
  | peWritePsum (addr : ℕ × ℕ) (data : List ℚ) : Instr
  | peAddPsum (addr : ℕ × ℕ) (data : List ℚ) : Instr
  | glbOther (opcode : ℕ) : Instr
  deriving DecidableEq, Repr

/-- Processing element: an id and three private scratchpads. -/
structure PE where
  id : ℕ
  filter : SPAD
  ifmap : SPAD
  psum : SPAD
  deriving DecidableEq, Repr

/-- PE construction (`PE.__init__`): scratchpads built from the
`filter_spad_settings`, `image_spad_settings`, `psum_spad_settings`
dictionaries of src/eyeriss/src/config/__init__.py. -/
def PE.init (id : ℕ) : PE :=
  ⟨id, SPAD.init 1 96, SPAD.init 1 16384, SPAD.init 1 16320⟩

/-- PE 1-D convolution (`PE._conv1d`): output length
`len(imageRow) - len(filterRow) + 1`; the loop fills `result[x]` with
`np.sum(imageRow[x:x+k] * filterRow)` for every `x` with `x + k ≤ n` and
breaks at the first `x` with `x + k > n`, i.e. exactly the indices
`0 .. n - k`. -/
def conv1d (imageRow filterRow : List ℚ) : List ℚ :=
  (List.range (imageRow.length - filterRow.length + 1)).map
    (fun x =>
      (List.zipWith (fun a b => a * b) ((imageRow.drop x).take filterRow.length) filterRow).sum)

/-- PE.compute: skip when the ifmap or the filter scratchpad is empty;
otherwise, when psum is currently empty, run the 1-D convolution of the
full stored rows and write it to psum at address (0, 0) — a write whose
numpy broadcast ValueError propagates (the convolution of full-width
stored rows is 16289 wide, which fits neither broadcast shape of the
16320-wide psum word). -/
def PE.computeStep (pe : PE) : Except Err PE :=
  if pe.ifmap.is_empty || pe.filter.is_empty then .ok pe
  else if pe.psum.is_empty then
    match pe.psum.write (0, 0) (conv1d (pe.ifmap.read (0, 0)) (pe.filter.read (0, 0))) with
    | .error e => .error e
    | .ok p => .ok { pe with psum := p }
  else .ok pe

/-- PE.__call__: synchronous instruction dispatch.  Returns the updated
PE and the optional reply payload (only PEReadPsumInstr replies), or the
exception the dispatched scratchpad operation raised; each arm performs
at most one fallible write, so a raising call leaves the PE unchanged. -/
def PE.call (pe : PE) (instr : Instr) : Except Err (PE × Option (List ℚ)) :=
  match instr with
  | .peWriteFilter a d =>
    match pe.filter.write a d with
    | .error e => .error e
    | .ok f => .ok ({ pe with filter := f }, none)
  | .peWriteIfmap a d =>
    match pe.ifmap.write a d with
    | .error e => .error e
    | .ok m => .ok ({ pe with ifmap := m }, none)
  | .peReadPsum a => .ok (pe, some (pe.psum.read a))
  | .peWritePsum a d =>
    match pe.psum.write a d with
    | .error e => .error e
    | .ok p => .ok ({ pe with psum := p }, none)
  | .peAddPsum a d =>
    match pyAdd (pe.psum.read a) d with
    | .error e => .error e
    | .ok s =>
      match pe.psum.write a s with
      | .error e => .error e
      | .ok p => .ok ({ pe with psum := p }, none)
  | .compute =>
    match pe.computeStep with
    | .error e => .error e
    | .ok pe' => .ok (pe', none)
  | .terminate => .ok (pe, none)
  | .glbOther _ => .ok (pe, none)

/-! ## NoC and the spatial array (src/eyeriss/src/noc/noc.py, pe/sa.py) -/

/-- Network-on-chip: a rows×cols grid of PEs (`SpatialArray`) plus the
modelled latency/energy.  The NoC also owns a `GlobalBuffer(1024, 16)`
which no operation on the convolution path reads or writes; it is
omitted from the state. -/
structure NoC where
  rows : ℕ
  cols : ℕ
  latency : ℚ
  energy : ℚ
  pes : List (List PE)
  deriving DecidableEq, Repr

/-- NoC construction: `SpatialArray(rows, cols)` builds
`PE(i * cols + j)` at cell (i, j). -/
def NoC.init (rows cols : ℕ) (lat en : ℚ) : NoC :=
  ⟨rows, cols, lat, en,
    (List.range rows).map (fun i => (List.range cols).map (fun j => PE.init (i * cols + j)))⟩

/-- Grid lookup `self._pes[key[0]][key[1]]` with Python index semantics
on both coordinates (negative indices wrap; out-of-range raises
IndexError, modelled as `none`). -/
def NoC.get2 (n : NoC) (i j : ℤ) : Option PE :=
  match pyGet n.pes i with
  | some row => pyGet row j
  | none => none

/-- Grid update at a resolved cell.  Python mutates the PE object in
place; the model replaces the cell the indices resolve to.  Invalid
indices (never reached: every update follows a successful `get2` at the
same indices) leave the grid unchanged. -/
def NoC.set2 (n : NoC) (i j : ℤ) (pe : PE) : NoC :=
  match pyIdx n.pes.length i with
  | some r =>
    match n.pes.get? r with
    | some row =>
      match pyIdx row.length j with
      | some c => { n with pes := n.pes.set r (row.set c pe) }
      | none => n
    | none => n
  | none => n

/-- One grid row of the iteration `for pe in self: pe(data)`: each PE
processes the message in order; a raising PE aborts the iteration with
that PE and the rest of the row unchanged (its own mutation never
happened — see `PE.call`), while earlier PEs keep their updates. -/
def peRowCall (row : List PE) (d : Instr) : List PE × Option Err :=
  match row with
  | [] => ([], none)
  | pe :: rest =>
    match pe.call d with
    | .error e => (pe :: rest, some e)
    | .ok (pe', _) =>
      match peRowCall rest d with
      | (rest', err) => (pe' :: rest', err)

/-- All grid rows of the iteration `for pe in self: pe(data)`
(row-major), with the same abort-on-raise semantics. -/
def peGridCall (grid : List (List PE)) (d : Instr) : List (List PE) × Option Err :=
  match grid with
  | [] => ([], none)
  | row :: rest =>
    match peRowCall row d with
    | (row', some e) => (row' :: rest, some e)
    | (row', none) =>
      match peGridCall rest d with
      | (rest', err) => (row' :: rest', err)

/-- The NoC-wide iteration `for pe in self: pe(data)` (also used directly
by `set_image`'s zero-fill and `compute`'s COMPUTE pass). -/
def NoC.sendAll (n : NoC) (d : Instr) : NoC × Option Err :=
  match peGridCall n.pes d with
  | (pes', err) => ({ n with pes := pes' }, err)

/-- NoC.multicast: BOTH branches of the source's
`if to is not None: ... else: ...` iterate over ALL PEs of the grid
(`for pe in self: pe(data)`); the destination list `to` is accepted and
ignored.  (`to` is a Lean keyword, hence the parameter name `dests`.)
The model reproduces both branches verbatim. -/
def NoC.multicast (n : NoC) (data : Instr) (dests : Option (List PE)) : NoC × Option Err :=
  match dests with
  | some _ => n.sendAll data
  | none => n.sendAll data

/-- NoC.diagonal_connections: walks up-and-right from `src = (row, col)`.
Returns `[]` when `row == 0` or `col == self._cols - 1`; otherwise
`self[row-1, col+1]` (grid lookup, IndexError possible) followed by the
recursive call at `(row-1, col+1)`.  `row` is a natural number at every
call site (loop indices and `rows-1`); `col` is an arbitrary Python
integer (the wrap loop of `set_image` produces negative columns).  The
recursion is structural on `row`, so it terminates for every input. -/
def NoC.diagonal_connections (n : NoC) : ℕ → ℤ → Except Err (List PE)
  | 0, _ => .ok []
  | (r + 1), col =>
    if col = (n.cols : ℤ) - 1 then .ok []
    else
      match n.get2 (r : ℤ) (col + 1) with
      | none => .error .index
      | some pe =>
        match n.diagonal_connections r (col + 1) with
        | .error e => .error e
        | .ok rest => .ok (pe :: rest)

/-! ## DRAM (src/eyeriss/src/memory/memory.py, class DRAM)

`DRAM.__init__` builds `page_blocks`, a list of `pages` lists of
`blocks` MemoryBlocks each, and passes that nested list to
`Memory.__init__`, so `self._blocks` is a Python list of pages (each a
plain Python list of MemoryBlocks), not a flat list of MemoryBlocks. -/
structure DRAM where
  pages : ℕ
  blocks : List (List MemoryBlock)
  deriving DecidableEq, Repr

/-- DRAM construction with the signature defaults
`pages=4, blocks=16, blockSize=4096, wordSize=16`. -/
def DRAM.init (pages blocks blockSize wordSize : ℕ) : DRAM :=
  ⟨pages,
    List.replicate pages
      (List.replicate blocks (MemoryBlock.init blockSize wordSize (1 / 1000000) (1 / 2000000000)))⟩

/-- Attribute lookup `x.shape` where `x` is `self._blocks[0]`: a plain
Python `list` (the page-0 list of MemoryBlocks, see `DRAM`) has no
`shape` attribute, so the lookup raises AttributeError unconditionally.
Kept as a separate definition so `DRAM.read`/`DRAM.write` mirror the
source line `pg_blocks = self._blocks[0].shape[0]`. -/
def pyListShape (page : List MemoryBlock) : Except Err (ℕ × ℕ) :=
  match page with
  | _ => .error .attribute

/-- DRAM.read: checks `address.shape != 3` (ValueError, spec:
AddressError), then evaluates `pg_blocks = self._blocks[0].shape[0]`,
which raises AttributeError (see `pyListShape`).  The source's remaining
steps (`self._blocks[page * pg_blocks]` — note the missing `+ block` —
and `.read(Address((block, word)))` on the resulting page list) are
unreachable. -/
def DRAM.read (d : DRAM) (a : List ℕ) : Except Err (List ℚ) :=
  if a.length ≠ 3 then .error .addressDim
  else
    match pyListShape (d.blocks.getD 0 []) with
    | .error e => .error e
    | .ok _ => .error .attribute

/-- DRAM.write: same decoding sequence as `DRAM.read`; the write is
never performed. -/
def DRAM.write (d : DRAM) (a : List ℕ) (_data : List ℚ) : Except Err DRAM :=
  if a.length ≠ 3 then .error .addressDim
  else
    match pyListShape (d.blocks.getD 0 []) with
    | .error e => .error e
    | .ok _ => .error .attribute

/-! ## The Eyeriss orchestrator (src/eyeriss/src/__init__.py) -/

/-- Accelerator session state: the NoC plus the two tracking booleans
and the tracked filter/image shapes. -/
structure Eyeriss where
  noc : NoC
  filter_set : Bool
  filter_size : ℕ × ℕ
  image_set : Bool
  image_size : ℕ × ℕ
  deriving DecidableEq, Repr

/-- Eyeriss.__init__ : fresh NoC (latency 0, energy 0), no filter or
image loaded, tracked shapes (0, 0). -/
def Eyeriss.init (rows cols : ℕ) : Eyeriss :=
  ⟨NoC.init rows cols 0 0, false, (0, 0), false, (0, 0)⟩

/-- Eyeriss.is_ready: both the filter and the image have been loaded. -/
def Eyeriss.is_ready (e : Eyeriss) : Bool :=
  e.filter_set && e.image_set

/-- Eyeriss.reset: clears the two tracking booleans and nothing else. -/
def Eyeriss.reset (e : Eyeriss) : Eyeriss :=
  { e with filter_set := false, image_set := false }

/-- The destination list `[self._noc[i, j] for j in range(self._noc.size[1])]`
of `set_filter`: grid lookups across row `i` at the listed columns,
IndexError if any lookup fails (it cannot for `i < rows`, which the
capacity check guarantees). -/
def NoC.gatherRow (n : NoC) (i : ℕ) : List ℕ → Except Err (List PE)
  | [] => .ok []
  | j :: rest =>
    match n.get2 (i : ℤ) (j : ℤ) with
    | none => .error .index
    | some pe =>
      match n.gatherRow i rest with
      | .error e => .error e
      | .ok l => .ok (pe :: l)

/-- The filter-distribution loop of `set_filter`: for each kernel row
`i`, build the destination list (row `i`, all columns) and multicast
PE_WRITE_FILTER with that row's data.  Because `NoC.multicast` ignores
its destinations, every iteration writes the filter scratchpad of every
PE in the grid — a write that raises numpy's broadcast ValueError unless
the kernel row's width is 1 or 96.  The state reached so far is returned
with the error on a failed lookup or a raising write. -/
def sfLoop (f : List (List ℚ)) (is : List ℕ) (n : NoC) : NoC × Option Err :=
  match is with
  | [] => (n, none)
  | i :: rest =>
    match n.gatherRow i (List.range n.cols) with
    | .error e => (n, some e)
    | .ok dest =>
      match n.multicast (.peWriteFilter (0, 0) (f.getD i [])) (some dest) with
      | (n1, some e) => (n1, some e)
      | (n1, none) => sfLoop f rest n1

/-- Eyeriss.set_filter: records the filter shape (BEFORE the capacity
check), raises ValueError (spec: ConfigurationError) when the kernel
exceeds the array, otherwise runs the distribution loop and marks the
filter loaded.  `fcols` is `filter.shape[1]`, the common length of the
kernel's rows (numpy arrays are rectangular), modelled as the length of
the first row. -/
def Eyeriss.set_filter (e : Eyeriss) (filter : List (List ℚ)) : Eyeriss × Option Err :=
  let frows := filter.length
  let fcols := (filter.headD []).length
  let e := { e with filter_size := (frows, fcols) }
  if frows > e.noc.rows || fcols > e.noc.cols then (e, some .configuration)
  else
    match sfLoop filter (List.range frows) e.noc with
    | (n, some err) => ({ e with noc := n }, some err)
    | (n, none) => ({ e with noc := n, filter_set := true }, none)

/-- First image-distribution loop of `set_image`
(`for i in range(min(irows, self._filter_size[0]))`): look up
`self._noc[i, 0]`, extend with `diagonal_connections((i, 0))`, then
multicast PE_WRITE_IFMAP of image row `i` — which, `NoC.multicast` being
what it is, writes the ifmap scratchpad of every PE in the grid (numpy
broadcast ValueError unless the row's width is 1 or 16384). -/
def siLoop1 (image : List (List ℚ)) (is : List ℕ) (n : NoC) : NoC × Option Err :=
  match is with
  | [] => (n, none)
  | i :: rest =>
    match n.get2 (i : ℤ) 0 with
    | none => (n, some .index)
    | some pe =>
      match n.diagonal_connections i 0 with
      | .error e => (n, some e)
      | .ok diag =>
        match n.multicast (.peWriteIfmap (0, 0) (image.getD i [])) (some (pe :: diag)) with
        | (n1, some e) => (n1, some e)
        | (n1, none) => siLoop1 image rest n1

/-- Wrap-around image-distribution loop of `set_image`
(`for i in range(self._filter_size[0], irows)`): the target row is
`rows - 1` and the target column is `i - rows` (a Python int that is
negative whenever `i < rows`, silently wrapping when `-cols ≤ i - rows`
and raising IndexError when `i - rows < -cols`). -/
def siLoop2 (image : List (List ℚ)) (is : List ℕ) (n : NoC) : NoC × Option Err :=
  match is with
  | [] => (n, none)
  | i :: rest =>
    let row : ℤ := (n.rows : ℤ) - 1
    let col : ℤ := (i : ℤ) - (n.rows : ℤ)
    match n.get2 row col with
    | none => (n, some .index)
    | some pe =>
      match n.diagonal_connections (n.rows - 1) col with
      | .error e => (n, some e)
      | .ok diag =>
        match n.multicast (.peWriteIfmap (0, 0) (image.getD i [])) (some (pe :: diag)) with
        | (n1, some e) => (n1, some e)
        | (n1, none) => siLoop2 image rest n1

/-- Eyeriss.set_image: records the image shape (BEFORE the two capacity
checks), raises ValueError (spec: ConfigurationError) when
`irows > rows + cols` or `irows - filter_rows > cols`, then zero-fills
every PE's ifmap scratchpad (`np.zeros(image.shape[1])`, broadcast into
the 16384-wide word — a raise unless the image width is 1 or 16384),
runs the first distribution loop, returns early when
`irows ≤ filter_rows`, else runs the wrap-around loop, and marks the
image loaded. -/
def Eyeriss.set_image (e : Eyeriss) (image : List (List ℚ)) : Eyeriss × Option Err :=
  let irows := image.length
  let icols := (image.headD []).length
  let e := { e with image_size := (irows, icols) }
  if irows > e.noc.rows + e.noc.cols then (e, some .configuration)
  else if (irows : ℤ) - (e.filter_size.1 : ℤ) > (e.noc.cols : ℤ) then (e, some .configuration)
  else
    match e.noc.sendAll (.peWriteIfmap (0, 0) (List.replicate icols 0)) with
    | (n0, some err) => ({ e with noc := n0 }, some err)
    | (n0, none) =>
      match siLoop1 image (List.range (min irows e.filter_size.1)) n0 with
      | (n1, some err) => ({ e with noc := n1 }, some err)
      | (n1, none) =>
        if irows ≤ e.filter_size.1 then ({ e with noc := n1, image_set := true }, none)
        else
          match siLoop2 image (List.range' e.filter_size.1 (irows - e.filter_size.1)) n1 with
          | (n2, some err) => ({ e with noc := n2 }, some err)
          | (n2, none) => ({ e with noc := n2, image_set := true }, none)

/-- Inner loop of the vertical psum reduction of `Eyeriss.compute`: for
each column `j`, read PSUM from PE(i, j) and ADD_PSUM that value into
PE(i-1, j); the ADD's numpy addition and psum write can raise (the
exception aborts the loops with the state reached so far). -/
def redRow (n : NoC) (i : ℕ) (js : List ℕ) : NoC × Option Err :=
  match js with
  | [] => (n, none)
  | j :: rest =>
    match n.get2 (i : ℤ) (j : ℤ) with
    | none => (n, some .index)
    | some pe =>
      match pe.call (.peReadPsum (0, 0)) with
      | .error e => (n, some e)
      | .ok (_, out) =>
        match n.get2 ((i : ℤ) - 1) (j : ℤ) with
        | none => (n, some .index)
        | some dest =>
          match dest.call (.peAddPsum (0, 0) (out.getD [])) with
          | .error e => (n, some e)
          | .ok (dest', _) => redRow (n.set2 ((i : ℤ) - 1) (j : ℤ) dest') i rest

/-- Outer loop of the vertical psum reduction
(`for i in range(self._filter_size[0], 1, -1): i -= 1; ...`): the
effective row indices are `filter_rows - 1, ..., 1`, descending. -/
def redLoop (is : List ℕ) (cols : ℕ) (n : NoC) : NoC × Option Err :=
  match is with
  | [] => (n, none)
  | i :: rest =>
    match redRow n i (List.range cols) with
    | (n1, some e) => (n1, some e)
    | (n1, none) => redLoop rest cols n1

/-- Final read-back of `Eyeriss.compute`: PSUM reads from grid row 0,
columns `0 .. nsums - 1`.  Reads do not mutate and do not raise. -/
def gatherPsums (n : NoC) : List ℕ → Except Err (List (List ℚ))
  | [] => .ok []
  | j :: rest =>
    match n.get2 0 (j : ℤ) with
    | none => .error .index
    | some pe =>
      match pe.call (.peReadPsum (0, 0)) with
      | .error e => .error e
      | .ok (_, out) =>
        match gatherPsums n rest with
        | .error e => .error e
        | .ok l => .ok (out.getD [] :: l)

/-- Eyeriss.compute: optionally loads the filter and/or the image first
(a raise there propagates), requires `is_ready` (ValueError, spec:
NotReadyError, otherwise), sends COMPUTE to every PE, runs the vertical
reduction, and stacks the psums read from grid row 0, columns
`0 .. min(conv_size, cols) - 1` where
`conv_size = image_rows - filter_rows + 1` (a Python int; a
non-positive value makes the final loop empty).  Returns the state
together with the result or the error raised. -/
def Eyeriss.compute (e : Eyeriss) (image filter : Option (List (List ℚ))) :
    Eyeriss × Except Err (List (List ℚ)) :=
  let step1 : Eyeriss × Option Err :=
    match filter with
    | some f => e.set_filter f
    | none => (e, none)
  match step1 with
  | (e1, some err) => (e1, .error err)
  | (e1, none) =>
    let step2 : Eyeriss × Option Err :=
      match image with
      | some im => e1.set_image im
      | none => (e1, none)
    match step2 with
    | (e2, some err) => (e2, .error err)
    | (e2, none) =>
      if e2.is_ready = false then (e2, .error .notReady)
      else
        match e2.noc.sendAll .compute with
        | (n1, some err) => ({ e2 with noc := n1 }, .error err)
        | (n1, none) =>
          match redLoop ((List.range' 1 (e2.filter_size.1 - 1)).reverse) e2.noc.cols n1 with
          | (n2, some err) => ({ e2 with noc := n2 }, .error err)
          | (n2, none) =>
            let conv_size : ℤ := (e2.image_size.1 : ℤ) - (e2.filter_size.1 : ℤ) + 1
            let nsums : ℤ := min conv_size (e2.noc.cols : ℤ)
            let js := if nsums ≤ 0 then [] else List.range nsums.toNat
            match gatherPsums n2 js with
            | .error err => ({ e2 with noc := n2 }, .error err)
            | .ok psums => ({ e2 with noc := n2 }, .ok psums)

/-! ## Reference oracle

Direct-loop 2-D valid-mode cross-correlation, translated from the
brute-force comparison loop of `main.py`
(`expected[i, j] = np.sum(image[i:i+kr, j:j+kc] * kernel)`), restricted
to the valid (non-padded) positions as the spec's testable property
states.  This is the one definition written to the spec's oracle rather
than to the core source, for the refinement claim that compares
`Eyeriss.compute` against it. -/
def conv2dRef (image kernel : List (List ℚ)) : List (List ℚ) :=
  (List.range (image.length - kernel.length + 1)).map
    (fun i =>
      (List.range ((image.headD []).length - (kernel.headD []).length + 1)).map
        (fun j =>
          ((List.range kernel.length).map
            (fun a =>
              ((List.range (kernel.headD []).length).map
                (fun b => (image.getD (i + a) []).getD (j + b) 0 * (kernel.getD a []).getD b 0)).sum)).sum))

/-! ## Well-formedness and proof-support definitions -/

/-- Grid well-formedness: the PE grid really has `rows` rows of `cols`
cells each.  `NoC.init` establishes this and every modelled operation
preserves it. -/
def NoC.wf (n : NoC) : Bool :=
  (n.pes.length == n.rows) && n.pes.all (fun r => r.length == n.cols)

/-- Proof abbreviation: a SPAD of one `1 × wordSize` block whose single
word currently stores the full-width row `d` (every write stores a
`wordSize`-wide row, see `MemoryBlock.write`). -/
def spad1 (wordSize : ℕ) (d : List ℚ) : SPAD :=
  ⟨[⟨1, wordSize, 1 / 1000000000, 1 / 1000000000000, [d]⟩]⟩

/-- The psum value currently stored at address (0, 0) of the PE at grid
cell (i, j), read off a state (used to phrase frame properties). -/
def psumVal (e : Eyeriss) (i j : ℕ) : Option (List ℚ) :=
  (e.noc.get2 (i : ℤ) (j : ℤ)).map (fun pe => pe.psum.read (0, 0))

/-- The scratchpad geometry every PE the source ever constructs has
(`PE.__init__` with the fixed config spad settings): one single-word
filter block whose stored row is 96 wide, one single-word ifmap block
whose stored row is 16384 wide, and a psum scratchpad equal to the fresh
`SPAD(1, 16320)`.  Writes preserve the full-width rows (numpy broadcast,
`MemoryBlock.write`), the orchestrator never sends PE_WRITE_PSUM, and
the reduction only ever rewrites a psum word with an equal-width row, so
this is an invariant of every state the program reaches. -/
def PE.stdShape (pe : PE) : Prop :=
  (∃ b r, pe.filter.blocks = [b] ∧ b.bits = [r] ∧ r.length = 96) ∧
  (∃ b r, pe.ifmap.blocks = [b] ∧ b.bits = [r] ∧ r.length = 16384) ∧
  pe.psum = SPAD.init 1 16320

/-- Every PE of the grid has the standard scratchpad geometry. -/
def NoC.stdShape (n : NoC) : Prop :=
  ∀ row ∈ n.pes, ∀ pe ∈ row, pe.stdShape

/-! ## Concrete example states used by the theorems -/

/-- A 2-row × 3-column accelerator, as in the spec's worked example. -/
def demoAccel : Eyeriss := Eyeriss.init 2 3

/-- The 2×2 all-ones kernel of the spec's worked example. -/
def convKernel : List (List ℚ) := [[1, 1], [1, 1]]

/-- The 4-row × 3-column all-ones image of the spec's worked example. -/
def onesImage : List (List ℚ) := [[1, 1, 1], [1, 1, 1], [1, 1, 1], [1, 1, 1]]

/-- A 3×3 probe image with distinct rows, on which the reference
convolution with `convKernel` has a nontrivial value. -/
def probeImage : List (List ℚ) := [[1, 0, 0], [0, 0, 0], [0, 0, 1]]

/-- The spec's worked example, run on the model as the single Python
call `accelerator.compute(image, kernel)` (which performs set_filter,
then set_image, then the computation; an exception anywhere
propagates out of the call). -/
def demoRun : Eyeriss × Except Err (List (List ℚ)) :=
  demoAccel.compute (some onesImage) (some convKernel)

/-- The probe run for the general-correctness claim: same 2×3 array and
kernel, probe image, again as one `compute(image, kernel)` call. -/
def probeRun : Eyeriss × Except Err (List (List ℚ)) :=
  demoAccel.compute (some probeImage) (some convKernel)

/-- A fresh 2×2 NoC used by the multicast claim. -/
def noc22 : NoC := NoC.init 2 2 0 0

/-- A 4-row × 1-column accelerator: tall and narrow, the shape on which
`set_image` raises IndexError within capacity. -/
def tallAccel : Eyeriss := Eyeriss.init 4 1

/-- A ready 2×1 accelerator in its freshly-built state (all scratchpads
zero) with tracked filter shape (2, 1) and image shape (3, 1): a state
on which `compute` succeeds (every PE skips its local convolution
because the scratchpads are empty, and the reduction adds zero rows). -/
def witReady : Eyeriss :=
  { noc := NoC.init 2 1 0 0, filter_set := true, filter_size := (2, 1),
    image_set := true, image_size := (3, 1) }

/-! ## Evaluation lemmas

These let `simp` evaluate concrete traces without ever scanning the
16384- and 16320-element zero rows of freshly initialized scratchpads
element by element. -/

theorem repAllZeroQ (n : ℕ) : (List.replicate n (0 : ℚ)).all (fun x => decide (x = 0)) = true := by
  induction n with
  | zero => rfl
  | succ k ih => simp [List.replicate_succ, ih]

@[simp] theorem MemoryBlock.blockInit_is_empty (w s : ℕ) (lat en : ℚ) :
    (MemoryBlock.init w s lat en).is_empty = true := by
  simp only [MemoryBlock.init, MemoryBlock.is_empty]
  induction w with
  | zero => rfl
  | succ k ih => simp only [List.replicate_succ, List.all_cons, ih, repAllZeroQ, Bool.and_self]

@[simp] theorem SPAD.spadInit_is_empty (w s : ℕ) :
    (SPAD.init w s).is_empty = true := by
  simp [SPAD.init, SPAD.is_empty]

@[simp] theorem SPAD.read_init (s : ℕ) :
    (SPAD.init 1 s).read 0 = List.replicate s 0 := by
  simp [SPAD.init, SPAD.read, MemoryBlock.init, MemoryBlock.read,
        Prod.fst_zero, Prod.snd_zero, List.replicate_one]

@[simp] theorem SPAD.read_spad1 (s : ℕ) (d : List ℚ) :
    (spad1 s d).read 0 = d := by
  simp [SPAD.read, MemoryBlock.read, spad1, Prod.fst_zero, Prod.snd_zero]

@[simp] theorem SPAD.is_empty_spad1 (s : ℕ) (d : List ℚ) :
    (spad1 s d).is_empty = d.all (fun x => decide (x = 0)) := by
  simp [spad1, SPAD.is_empty, MemoryBlock.is_empty]

@[simp] theorem spad1_replicate_zero (s : ℕ) :
    spad1 s (List.replicate s 0) = SPAD.init 1 s := rfl

@[simp] theorem SPAD.write_init_eval (s : ℕ) (d : List ℚ) :
    (SPAD.init 1 s).write 0 d =
      if d.length = 1 then .ok (spad1 s (List.replicate s (d.headD 0)))
      else if d.length = s then .ok (spad1 s d)
      else .error .broadcast := by
  simp only [SPAD.init, SPAD.write, MemoryBlock.init, MemoryBlock.write, spad1,
             Prod.fst_zero, Prod.snd_zero, List.replicate_one, List.getD_cons_zero,
             List.set_cons_zero]
  split_ifs <;> rfl

@[simp] theorem SPAD.write_spad1_eval (s : ℕ) (d0 d : List ℚ) :
    (spad1 s d0).write 0 d =
      if d.length = 1 then .ok (spad1 s (List.replicate s (d.headD 0)))
      else if d.length = s then .ok (spad1 s d)
      else .error .broadcast := by
  simp only [SPAD.write, MemoryBlock.write, spad1,
             Prod.fst_zero, Prod.snd_zero, List.getD_cons_zero, List.set_cons_zero]
  split_ifs <;> rfl

@[simp] theorem zipWithAddRepZero (m : ℕ) :
    List.zipWith (fun x y => x + y) (List.replicate m (0 : ℚ)) (List.replicate m 0) =
      List.replicate m 0 := by
  induction m with
  | zero => rfl
  | succ k ih => simp [List.replicate_succ, ih]

@[simp] theorem pyAdd_rep_zero (m : ℕ) :
    pyAdd (List.replicate m (0 : ℚ)) (List.replicate m 0) = .ok (List.replicate m 0) := by
  unfold pyAdd
  rw [if_pos (by simp), zipWithAddRepZero]

theorem SPAD.init_write_zero_row (s : ℕ) :
    (SPAD.init 1 s).write (0, 0) (List.replicate s 0) = .ok (SPAD.init 1 s) := by
  simp only [Prod.mk_zero_zero, SPAD.write_init_eval, List.length_replicate]
  by_cases hs : s = 1
  · subst hs
    norm_num
    rfl
  · rw [if_neg hs]
    simp

theorem SPAD.init_write_bad (s : ℕ) (d : List ℚ)
    (h1 : d.length ≠ 1) (h2 : d.length ≠ s) :
    (SPAD.init 1 s).write (0, 0) d = .error .broadcast := by
  simp only [Prod.mk_zero_zero, SPAD.write_init_eval, if_neg h1, if_neg h2]

/-! ## Claim theorems on concrete traces -/

/-- Claim C1 (code bug): `compute` does NOT return the valid-mode
direct-loop cross-correlation.  On the in-capacity input
(rows = 2, cols = 3, kernel = 2×2 all-ones, image = `probeImage`),
`compute(I, K)` raises numpy's broadcast ValueError at the very first
filter-scratchpad write: `set_filter` assigns the 2-wide kernel row into
the 96-wide filter word, which broadcasts for widths 1 and 96 only.  So
the call returns no matrix at all, while the direct-loop oracle gives
`[[1, 0], [0, 1]]`.  (Independently, `NoC.multicast` ignores its
destination list — claim C2.) -/
theorem C1_compute_deviates_from_oracle :
    probeRun.2 = .error .broadcast ∧
    conv2dRef probeImage convKernel = [[1, 0], [0, 1]] ∧
    ∀ v : List (List ℚ), (Except.error .broadcast : Except Err (List (List ℚ))) ≠ .ok v := by
  refine ⟨?_, ?_, fun v h => by cases h⟩
  · simp [probeRun, demoAccel, convKernel, probeImage, Eyeriss.init, Eyeriss.compute,
          Eyeriss.set_filter, sfLoop, NoC.gatherRow, NoC.multicast, NoC.sendAll, peGridCall,
          peRowCall, NoC.get2, NoC.init, pyGet, pyIdx, PE.init, PE.call, List.range_succ]
  · simp [conv2dRef, probeImage, convKernel, List.range_succ]

/-- Claim C2 (code bug): `multicast(m, d)` does not deliver to exactly
the PEs in `d`.  With an EMPTY destination list on a fresh 2×2 grid, the
PE at (1, 1) — which is not a destination — still processes the
PE_WRITE_FILTER message: its filter word changes from the initial
all-zero row to ninety-six copies of the payload value (the length-1
payload broadcast across the 96-wide word), and no exception is
raised. -/
theorem C2_multicast_ignores_destinations :
    (noc22.multicast (.peWriteFilter (0, 0) [5]) (some [])).2 = none ∧
    ((noc22.multicast (.peWriteFilter (0, 0) [5]) (some [])).1.get2 1 1).map
        (fun pe => pe.filter.read (0, 0)) = some (List.replicate 96 5) ∧
    (noc22.get2 1 1).map (fun pe => pe.filter.read (0, 0)) = some (List.replicate 96 0) ∧
    List.replicate 96 (5 : ℚ) ≠ List.replicate 96 0 := by
  refine ⟨?_, ?_, ?_, by decide⟩
  · simp [noc22, NoC.multicast, NoC.sendAll, peGridCall, peRowCall, NoC.get2, NoC.init, pyGet,
          pyIdx, PE.init, PE.call, List.range_succ]
  · simp [noc22, NoC.multicast, NoC.sendAll, peGridCall, peRowCall, NoC.get2, NoC.init, pyGet,
          pyIdx, PE.init, PE.call, List.range_succ]
  · simp [noc22, NoC.get2, NoC.init, pyGet, pyIdx, PE.init, List.range_succ]

/-- Claim C4, counterexample: on the spec's worked example
(rows = 2, cols = 3, 2×2 all-ones kernel, 4×3 all-ones image),
`compute(I, K)` does not return the claimed 2×2 all-4 matrix — it
raises numpy's broadcast ValueError and returns nothing. -/
theorem C4_result_is_not_two_by_two :
    demoRun.2 = .error .broadcast ∧
    (Except.error .broadcast : Except Err (List (List ℚ))) ≠ .ok [[4, 4], [4, 4]] := by
  refine ⟨?_, fun h => by cases h⟩
  simp [demoRun, demoAccel, convKernel, onesImage, Eyeriss.init, Eyeriss.compute,
        Eyeriss.set_filter, sfLoop, NoC.gatherRow, NoC.multicast, NoC.sendAll, peGridCall,
        peRowCall, NoC.get2, NoC.init, pyGet, pyIdx, PE.init, PE.call, List.range_succ]

/-- Claim C4, amended: on the worked example, `set_filter` raises
numpy's broadcast ValueError at the first PE filter write (the 2-wide
kernel row fits neither broadcast shape of the 96-wide filter word), so
the `compute(image, kernel)` call raises and no result matrix is
returned. -/
theorem C4_amended_raises_at_filter_write :
    (demoAccel.set_filter convKernel).2 = some .broadcast ∧
    demoRun.2 = .error .broadcast := by
  constructor
  · simp [demoAccel, convKernel, Eyeriss.init, Eyeriss.set_filter, sfLoop, NoC.gatherRow,
          NoC.multicast, NoC.sendAll, peGridCall, peRowCall, NoC.get2, NoC.init, pyGet,
          pyIdx, PE.init, PE.call, List.range_succ]
  · simp [demoRun, demoAccel, convKernel, onesImage, Eyeriss.init, Eyeriss.compute,
          Eyeriss.set_filter, sfLoop, NoC.gatherRow, NoC.multicast, NoC.sendAll, peGridCall,
          peRowCall, NoC.get2, NoC.init, pyGet, pyIdx, PE.init, PE.call, List.range_succ]

/-- Claim C5 (code bug): DRAM 3-D decoding never reaches the flattened
block: `self._blocks[0]` is the page-0 Python list (the constructor
passes a list of lists to the Memory base), a list has no `shape`
attribute, and both `read` and `write` raise AttributeError at
`pg_blocks = self._blocks[0].shape[0]` — address (1, 0, 3) with
blocksPerPage = 16 included.  Only the dimensionality check behaves as
claimed: a 2-D address fails first with the ValueError the spec calls
AddressError. -/
theorem C5_dram_decode_crashes :
    (DRAM.init 4 16 4096 16).read [1, 0, 3] = .error .attribute ∧
    (DRAM.init 4 16 4096 16).write [1, 0, 3] [7] = .error .attribute ∧
    (DRAM.init 4 16 4096 16).read [0, 5] = .error .addressDim := by
  refine ⟨?_, ?_, ?_⟩ <;> simp [DRAM.read, DRAM.write, DRAM.init, pyListShape]

/-- Claim C9: `reset` flips only the two tracking booleans back to
false (making `is_ready` false) and leaves the NoC — hence every PE's
filter, ifmap and psum scratchpads — and the tracked shapes exactly
unchanged. -/
theorem C9_reset_clears_only_flags (e : Eyeriss) :
    e.reset.noc = e.noc ∧
    e.reset.filter_set = false ∧
    e.reset.image_set = false ∧
    e.reset.filter_size = e.filter_size ∧
    e.reset.image_size = e.image_size ∧
    e.reset.is_ready = false := by
  simp [Eyeriss.reset, Eyeriss.is_ready]

/-- Claim C10: both loaders overwrite the tracked shape BEFORE their
capacity checks, so a rejected call leaves the orchestrator holding the
rejected argument's shape: the error return is exactly the input state
with the tracked shape replaced (and the ConfigurationError), and the
stale shape feeds every later capacity check and result sizing. -/
theorem C10_shape_recorded_before_checks (e : Eyeriss) (K I : List (List ℚ)) :
    (K.length > e.noc.rows ∨ (K.headD []).length > e.noc.cols →
      e.set_filter K =
        ({ e with filter_size := (K.length, (K.headD []).length) }, some .configuration)) ∧
    (I.length > e.noc.rows + e.noc.cols ∨
        (I.length : ℤ) - (e.filter_size.1 : ℤ) > (e.noc.cols : ℤ) →
      e.set_image I =
        ({ e with image_size := (I.length, (I.headD []).length) }, some .configuration)) := by
  constructor
  · intro h
    rcases h with h | h <;> simp [Eyeriss.set_filter, h, -List.headD_eq_head?_getD]
  · intro h
    by_cases h1 : I.length > e.noc.rows + e.noc.cols
    · simp [Eyeriss.set_image, h1, -List.headD_eq_head?_getD]
    · rcases h with h | h
      · exact absurd h h1
      · simp [Eyeriss.set_image, h1, h, -List.headD_eq_head?_getD]

/-- Claim C10, witness: on the 2×3 demo accelerator, a 3×1 kernel is
rejected with the tracked filter shape already replaced by (3, 1), and a
4×1 image is rejected with the tracked image shape already replaced by
(4, 1). -/
theorem C10_witness :
    demoAccel.set_filter [[1], [1], [1]] =
      ({ demoAccel with filter_size := (3, 1) }, some .configuration) ∧
    demoAccel.set_image [[1], [1], [1], [1]] =
      ({ demoAccel with image_size := (4, 1) }, some .configuration) :=
  ⟨(C10_shape_recorded_before_checks demoAccel [[1], [1], [1]] []).1 (Or.inl (by decide)),
   (C10_shape_recorded_before_checks demoAccel [] [[1], [1], [1], [1]]).2 (Or.inr (by decide))⟩

/-- Helper: the sliding-window dot product computed by `conv1d` at
offset `i` equals the index-wise sum of products. -/
theorem windowSum (w : List ℚ) : ∀ (r : List ℚ) (i : ℕ), i + w.length ≤ r.length →
    (List.zipWith (fun a b => a * b) ((r.drop i).take w.length) w).sum
      = ∑ j ∈ Finset.range w.length, r.getD (i + j) 0 * w.getD j 0 := by
  induction w with
  | nil => intro r i _; simp
  | cons a tl ih =>
    intro r i h
    have hlen : tl.length + 1 = (a :: tl).length := by simp
    have hi : i < r.length := by simp at h; omega
    have h2 : (i + 1) + tl.length ≤ r.length := by simp at h; omega
    rw [List.drop_eq_getElem_cons hi]
    simp only [List.length_cons]
    rw [List.take_succ_cons, List.zipWith_cons_cons, List.sum_cons, ih r (i + 1) h2]
    have hshift : ∀ j ∈ Finset.range tl.length,
        r.getD (i + 1 + j) 0 * tl.getD j 0 = r.getD (i + (j + 1)) 0 * (a :: tl).getD (j + 1) 0 := by
      intro j _
      rw [List.getD_cons_succ, show i + 1 + j = i + (j + 1) by omega]
    rw [Finset.sum_congr rfl hshift]
    have hsucc := Finset.sum_range_succ' (fun j => r.getD (i + j) 0 * (a :: tl).getD j 0) tl.length
    simp only [List.length_cons, hsucc, List.getD_cons_zero, Nat.add_zero]
    rw [List.getD_eq_getElem r 0 hi]
    ring

/-- Claim C6: the PE 1-D convolution is the valid-mode cross-correlation:
for a data row of length n and a kernel row of length k with 1 ≤ k ≤ n,
the output has length n - k + 1 and entry i (for every i ≤ n - k) equals
the dot product of the window r[i .. i+k-1] with the kernel row. -/
theorem C6_conv1d_valid_mode (r w : List ℚ) (hk : 1 ≤ w.length) (hn : w.length ≤ r.length) :
    (conv1d r w).length = r.length - w.length + 1 ∧
    ∀ i, i ≤ r.length - w.length →
      (conv1d r w).getD i 0 = ∑ j ∈ Finset.range w.length, r.getD (i + j) 0 * w.getD j 0 := by
  constructor
  · simp [conv1d]
  · intro i hi
    have him : i < r.length - w.length + 1 := by omega
    have hmap : (conv1d r w)[i]? =
        some ((List.zipWith (fun a b => a * b) ((r.drop i).take w.length) w).sum) := by
      rw [conv1d, List.getElem?_map, List.getElem?_range him, Option.map_some']
    have hwin : i + w.length ≤ r.length := by omega
    rw [List.getD, List.get?_eq_getElem?, hmap, Option.getD_some, windowSum w r i hwin]

/-- Claim C6, witness: for r = [1, 2, 3] and w = [1, 1] (k = 2 ≤ n = 3)
the output has length 2 and its entries are the window sums. -/
theorem C6_conv1d_witness :
    (conv1d [1, 2, 3] [1, 1]).length = 3 - 2 + 1 ∧
    ∀ i, i ≤ 3 - 2 →
      (conv1d [(1 : ℚ), 2, 3] [1, 1]).getD i 0 =
        ∑ j ∈ Finset.range 2, ([(1 : ℚ), 2, 3]).getD (i + j) 0 * ([(1 : ℚ), 1]).getD j 0 := by
  have h := C6_conv1d_valid_mode [1, 2, 3] [1, 1] (by decide) (by decide)
  simpa using h

/-- Helper: on a well-formed grid, a lookup with a row index below
`rows` and an integer column index within Python range (that is,
`-cols ≤ col < cols`) succeeds. -/
theorem wf_get2 (n : NoC) (hwf : n.wf = true) (a : ℕ) (b : ℤ)
    (ha : a < n.rows) (hb1 : -(n.cols : ℤ) ≤ b) (hb2 : b < (n.cols : ℤ)) :
    ∃ pe, n.get2 (a : ℤ) b = some pe := by
  simp only [NoC.wf, Bool.and_eq_true, beq_iff_eq, List.all_eq_true] at hwf
  obtain ⟨hlen, hall⟩ := hwf
  have ha' : a < n.pes.length := by omega
  have hrow : n.pes[a]? = some n.pes[a] := List.getElem?_eq_getElem ha'
  have hrl : n.pes[a].length = n.cols := by
    have := hall _ (List.getElem_mem ha')
    simpa using this
  have hidxa : pyIdx n.pes.length (a : ℤ) = some a := by
    unfold pyIdx
    rw [if_pos (by omega), if_pos (by omega)]
    simp
  rcases Int.le_or_lt 0 b with hb0 | hb0
  · have hidxb : pyIdx n.pes[a].length b = some b.toNat := by
      unfold pyIdx
      rw [if_pos hb0, if_pos (by omega)]
    have hbn : b.toNat < n.pes[a].length := by omega
    refine ⟨n.pes[a][b.toNat], ?_⟩
    simp [NoC.get2, pyGet, hidxa, hrow, hidxb, List.get?_eq_getElem?,
          List.getElem?_eq_getElem hbn]
  · have hidxb : pyIdx n.pes[a].length b = some (n.pes[a].length - (-b).toNat) := by
      unfold pyIdx
      rw [if_neg (by omega), if_pos (by omega)]
    have hbn : n.pes[a].length - (-b).toNat < n.pes[a].length := by omega
    refine ⟨n.pes[a][n.pes[a].length - (-b).toNat], ?_⟩
    simp [NoC.get2, pyGet, hidxa, hrow, hidxb, List.get?_eq_getElem?,
          List.getElem?_eq_getElem hbn]

/-- Helper: on a well-formed grid, `diagonal_connections` returns a
result (no IndexError) whenever the start row is in range and the start
column is a valid Python index not beyond `cols - 1`. -/
theorem diag_ok (n : NoC) (hwf : n.wf = true) : ∀ (row : ℕ) (col : ℤ), row < n.rows →
    -(n.cols : ℤ) ≤ col → col ≤ (n.cols : ℤ) - 1 →
    ∃ l, n.diagonal_connections row col = .ok l := by
  intro row
  induction row with
  | zero => exact fun col _ _ _ => ⟨[], rfl⟩
  | succ r ih =>
    intro col hr h1 h2
    by_cases hc : col = (n.cols : ℤ) - 1
    · exact ⟨[], by simp [NoC.diagonal_connections, hc]⟩
    · obtain ⟨pe, hpe⟩ := wf_get2 n hwf r (col + 1) (by omega) (by omega) (by omega)
      obtain ⟨rest, hrest⟩ := ih (col + 1) (by omega) (by omega) (by omega)
      exact ⟨pe :: rest, by simp [NoC.diagonal_connections, hc, hpe, hrest]⟩

/-- Claim C7: for every in-grid coordinate of a well-formed NoC,
`diagonal_connections` returns the empty list when `row = 0` or
`col = cols - 1`, and otherwise returns the PE at (row-1, col+1)
followed by the recursive result at (row-1, col+1); the recursion is
structural on the row index, hence total. -/
theorem C7_diagonal_connections_spec (n : NoC) (row col : ℕ)
    (hwf : n.wf = true) (hr : row < n.rows) (hc : col < n.cols) :
    ((row = 0 ∨ col = n.cols - 1) → n.diagonal_connections row (col : ℤ) = .ok []) ∧
    (row ≠ 0 → col ≠ n.cols - 1 → ∃ pe rest,
      n.get2 ((row : ℤ) - 1) ((col : ℤ) + 1) = some pe ∧
      n.diagonal_connections (row - 1) ((col : ℤ) + 1) = .ok rest ∧
      n.diagonal_connections row (col : ℤ) = .ok (pe :: rest)) := by
  constructor
  · intro h
    rcases h with h | h
    · subst h; rfl
    · cases row with
      | zero => rfl
      | succ r =>
        have : (col : ℤ) = (n.cols : ℤ) - 1 := by omega
        simp [NoC.diagonal_connections, this]
  · intro h0 hce
    cases row with
    | zero => exact absurd rfl h0
    | succ r =>
      have hcz : (col : ℤ) ≠ (n.cols : ℤ) - 1 := by omega
      obtain ⟨pe, hpe⟩ := wf_get2 n hwf r ((col : ℤ) + 1) (by omega) (by omega) (by omega)
      obtain ⟨rest, hrest⟩ := diag_ok n hwf r ((col : ℤ) + 1) (by omega) (by omega) (by omega)
      refine ⟨pe, rest, ?_, ?_, ?_⟩
      · have : ((r + 1 : ℕ) : ℤ) - 1 = (r : ℤ) := by omega
        rw [this]; exact hpe
      · simpa using hrest
      · simp [NoC.diagonal_connections, hcz, hpe, hrest]

/-- Claim C7, witness: on a fresh well-formed 3×3 grid, the in-grid
coordinate (2, 0) is neither top-row nor rightmost, and the chain steps
through (1, 1); the coordinate (2, 2) is rightmost, giving the empty
list. -/
theorem C7_diagonal_connections_witness :
    (((2 : ℕ) = 0 ∨ (2 : ℕ) = (NoC.init 3 3 0 0).cols - 1) →
      (NoC.init 3 3 0 0).diagonal_connections 2 ((2 : ℕ) : ℤ) = .ok []) ∧
    ((2 : ℕ) ≠ 0 → (0 : ℕ) ≠ (NoC.init 3 3 0 0).cols - 1 → ∃ pe rest,
      (NoC.init 3 3 0 0).get2 (((2 : ℕ) : ℤ) - 1) (((0 : ℕ) : ℤ) + 1) = some pe ∧
      (NoC.init 3 3 0 0).diagonal_connections (2 - 1) (((0 : ℕ) : ℤ) + 1) = .ok rest ∧
      (NoC.init 3 3 0 0).diagonal_connections 2 ((0 : ℕ) : ℤ) = .ok (pe :: rest)) :=
  ⟨(C7_diagonal_connections_spec (NoC.init 3 3 0 0) 2 2 (by decide) (by decide) (by decide)).1,
   (C7_diagonal_connections_spec (NoC.init 3 3 0 0) 2 0 (by decide) (by decide) (by decide)).2⟩

/-! ## Error-kind classification

The only exceptions the distribution paths can raise are grid/list
IndexErrors and numpy broadcast ValueErrors; the capacity ValueError
(`Err.configuration`) is raised at the two loader checks and nowhere
else.  These lemmas pin the raise kind of every operation. -/

theorem MemoryBlock.blockWrite_err (b : MemoryBlock) (a : ℕ) (d : List ℚ) (e : Err)
    (h : b.write a d = .error e) : e = .broadcast := by
  unfold MemoryBlock.write at h
  split_ifs at h
  all_goals cases h
  all_goals rfl

theorem SPAD.spadWrite_err (s : SPAD) (a : ℕ × ℕ) (d : List ℚ) (e : Err)
    (h : s.write a d = .error e) : e = .broadcast := by
  unfold SPAD.write at h
  rcases hb : (s.blocks.getD a.1 (MemoryBlock.init 0 0 0 0)).write a.2 d with e' | b <;>
    rw [hb] at h
  · injection h with h1
    rw [← h1]
    exact MemoryBlock.blockWrite_err _ _ _ _ hb
  · cases h

theorem pyAdd_err (a b : List ℚ) (e : Err) (h : pyAdd a b = .error e) : e = .broadcast := by
  unfold pyAdd at h
  split_ifs at h
  all_goals cases h
  all_goals rfl

theorem PE.computeStep_err (pe : PE) (e : Err) (h : pe.computeStep = .error e) :
    e = .broadcast := by
  unfold PE.computeStep at h
  by_cases h1 : (pe.ifmap.is_empty || pe.filter.is_empty) = true
  · rw [if_pos h1] at h
    cases h
  · rw [if_neg h1] at h
    by_cases h2 : pe.psum.is_empty = true
    · rw [if_pos h2] at h
      rcases hw : pe.psum.write (0, 0) (conv1d (pe.ifmap.read (0, 0)) (pe.filter.read (0, 0)))
        with e' | p <;> simp only [hw] at h
      · exact (Except.error.inj h) ▸ SPAD.spadWrite_err _ _ _ _ hw
      · cases h
    · rw [if_neg h2] at h
      cases h

theorem PE.call_err (pe : PE) (d : Instr) (e : Err) (h : pe.call d = .error e) :
    e = .broadcast := by
  cases d with
  | terminate => cases h
  | glbOther k => cases h
  | peReadPsum a => cases h
  | compute =>
    simp only [PE.call] at h
    rcases hc : pe.computeStep with e' | q <;> simp only [hc] at h
    · exact (Except.error.inj h) ▸ PE.computeStep_err _ _ hc
    · cases h
  | peWriteFilter a dd =>
    simp only [PE.call] at h
    rcases hw : pe.filter.write a dd with e' | f <;> simp only [hw] at h
    · exact (Except.error.inj h) ▸ SPAD.spadWrite_err _ _ _ _ hw
    · cases h
  | peWriteIfmap a dd =>
    simp only [PE.call] at h
    rcases hw : pe.ifmap.write a dd with e' | f <;> simp only [hw] at h
    · exact (Except.error.inj h) ▸ SPAD.spadWrite_err _ _ _ _ hw
    · cases h
  | peWritePsum a dd =>
    simp only [PE.call] at h
    rcases hw : pe.psum.write a dd with e' | f <;> simp only [hw] at h
    · exact (Except.error.inj h) ▸ SPAD.spadWrite_err _ _ _ _ hw
    · cases h
  | peAddPsum a dd =>
    simp only [PE.call] at h
    rcases ha : pyAdd (pe.psum.read a) dd with e' | sres <;> simp only [ha] at h
    · exact (Except.error.inj h) ▸ pyAdd_err _ _ _ ha
    · rcases hw : pe.psum.write a sres with e' | f <;> simp only [hw] at h
      · exact (Except.error.inj h) ▸ SPAD.spadWrite_err _ _ _ _ hw
      · cases h

theorem peRowCall_err (d : Instr) : ∀ (row row' : List PE) (e : Err),
    peRowCall row d = (row', some e) → e = .broadcast := by
  intro row
  induction row with
  | nil =>
    intro row' e h
    unfold peRowCall at h
    injection h with h1 h2
    cases h2
  | cons pe rest ih =>
    intro row' e h
    unfold peRowCall at h
    rcases hc : pe.call d with e' | pr <;> rw [hc] at h
    · injection h with h1 h2
      injection h2 with h3
      rw [← h3]
      exact PE.call_err _ _ _ hc
    · obtain ⟨pe', out⟩ := pr
      rcases hr : peRowCall rest d with ⟨rest', err⟩
      rw [hr] at h
      injection h with h1 h2
      rw [h2] at hr
      exact ih rest' e hr

theorem peGridCall_err (d : Instr) : ∀ (g g' : List (List PE)) (e : Err),
    peGridCall g d = (g', some e) → e = .broadcast := by
  intro g
  induction g with
  | nil =>
    intro g' e h
    unfold peGridCall at h
    injection h with h1 h2
    cases h2
  | cons row rest ih =>
    intro g' e h
    unfold peGridCall at h
    rcases hr : peRowCall row d with ⟨row', errr⟩
    rw [hr] at h
    cases errr with
    | some er =>
      injection h with h1 h2
      injection h2 with h3
      rw [← h3]
      exact peRowCall_err d row row' er hr
    | none =>
      rcases hg : peGridCall rest d with ⟨rest', err⟩
      rw [hg] at h
      injection h with h1 h2
      rw [h2] at hg
      exact ih rest' e hg

theorem NoC.sendAll_err (n : NoC) (d : Instr) (n1 : NoC) (e : Err)
    (h : n.sendAll d = (n1, some e)) : e = .broadcast := by
  unfold NoC.sendAll at h
  rcases hg : peGridCall n.pes d with ⟨pes', err⟩
  rw [hg] at h
  injection h with h1 h2
  rw [h2] at hg
  exact peGridCall_err d _ _ _ hg

theorem NoC.multicast_err (n : NoC) (d : Instr) (t : Option (List PE)) (n1 : NoC) (e : Err)
    (h : n.multicast d t = (n1, some e)) : e = .broadcast := by
  cases t <;> exact NoC.sendAll_err n d n1 e h

theorem gatherRow_err (n : NoC) (i : ℕ) : ∀ (js : List ℕ) (e : Err),
    n.gatherRow i js = .error e → e = .index := by
  intro js
  induction js with
  | nil =>
    intro e h
    cases h
  | cons j rest ih =>
    intro e h
    unfold NoC.gatherRow at h
    rcases hg : n.get2 (i : ℤ) (j : ℤ) with _ | pe <;> rw [hg] at h
    · injection h with h1
      exact h1.symm
    · rcases hr : n.gatherRow i rest with e' | l <;> rw [hr] at h
      · injection h with h1
        rw [← h1]
        exact ih e' hr
      · cases h

theorem diag_err (n : NoC) : ∀ (r : ℕ) (c : ℤ) (e : Err),
    n.diagonal_connections r c = .error e → e = .index := by
  intro r
  induction r with
  | zero =>
    intro c e h
    cases h
  | succ k ih =>
    intro c e h
    unfold NoC.diagonal_connections at h
    by_cases hc : c = (n.cols : ℤ) - 1
    · rw [if_pos hc] at h
      cases h
    · rw [if_neg hc] at h
      rcases hg : n.get2 (k : ℤ) (c + 1) with _ | pe <;> simp only [hg] at h
      · exact (Except.error.inj h).symm
      · rcases hd : n.diagonal_connections k (c + 1) with e' | rest <;> simp only [hd] at h
        · exact (Except.error.inj h) ▸ ih (c + 1) e' hd
        · cases h

theorem sfLoop_err (f : List (List ℚ)) : ∀ (is : List ℕ) (n n1 : NoC) (e : Err),
    sfLoop f is n = (n1, some e) → e = .index ∨ e = .broadcast := by
  intro is
  induction is with
  | nil =>
    intro n n1 e h
    simp only [sfLoop] at h
    simp at h
  | cons i rest ih =>
    intro n n1 e h
    unfold sfLoop at h
    rcases hg : n.gatherRow i (List.range n.cols) with e' | dest <;> simp only [hg] at h
    · have h3 : e' = e := Option.some.inj (congrArg Prod.snd h)
      exact h3 ▸ Or.inl (gatherRow_err n i _ e' hg)
    · rcases hm : n.multicast (.peWriteFilter (0, 0) (f.getD i [])) (some dest)
        with ⟨nm, errm⟩
      cases errm with
      | some em =>
        simp only [hm] at h
        have h3 : em = e := Option.some.inj (congrArg Prod.snd h)
        exact h3 ▸ Or.inr (NoC.multicast_err _ _ _ _ _ hm)
      | none =>
        simp only [hm] at h
        exact ih nm n1 e h

theorem siLoop1_err (img : List (List ℚ)) : ∀ (is : List ℕ) (n n1 : NoC) (e : Err),
    siLoop1 img is n = (n1, some e) → e = .index ∨ e = .broadcast := by
  intro is
  induction is with
  | nil =>
    intro n n1 e h
    simp only [siLoop1] at h
    simp at h
  | cons i rest ih =>
    intro n n1 e h
    unfold siLoop1 at h
    rcases hg : n.get2 (i : ℤ) 0 with _ | pe <;> simp only [hg] at h
    · have h3 : Err.index = e := Option.some.inj (congrArg Prod.snd h)
      exact h3 ▸ Or.inl rfl
    · rcases hd : n.diagonal_connections i 0 with e' | diag <;> simp only [hd] at h
      · have h3 : e' = e := Option.some.inj (congrArg Prod.snd h)
        exact h3 ▸ Or.inl (diag_err n i 0 e' hd)
      · rcases hm : n.multicast (.peWriteIfmap (0, 0) (img.getD i [])) (some (pe :: diag))
          with ⟨nm, errm⟩
        cases errm with
        | some em =>
          simp only [hm] at h
          have h3 : em = e := Option.some.inj (congrArg Prod.snd h)
          exact h3 ▸ Or.inr (NoC.multicast_err _ _ _ _ _ hm)
        | none =>
          simp only [hm] at h
          exact ih nm n1 e h

theorem siLoop2_err (img : List (List ℚ)) : ∀ (is : List ℕ) (n n1 : NoC) (e : Err),
    siLoop2 img is n = (n1, some e) → e = .index ∨ e = .broadcast := by
  intro is
  induction is with
  | nil =>
    intro n n1 e h
    simp only [siLoop2] at h
    simp at h
  | cons i rest ih =>
    intro n n1 e h
    simp only [siLoop2] at h
    rcases hg : n.get2 ((n.rows : ℤ) - 1) ((i : ℤ) - (n.rows : ℤ)) with _ | pe <;>
      simp only [hg] at h
    · have h3 : Err.index = e := Option.some.inj (congrArg Prod.snd h)
      exact h3 ▸ Or.inl rfl
    · rcases hd : n.diagonal_connections (n.rows - 1) ((i : ℤ) - (n.rows : ℤ))
        with e' | diag <;> simp only [hd] at h
      · have h3 : e' = e := Option.some.inj (congrArg Prod.snd h)
        exact h3 ▸ Or.inl (diag_err n _ _ e' hd)
      · rcases hm : n.multicast (.peWriteIfmap (0, 0) (img.getD i [])) (some (pe :: diag))
          with ⟨nm, errm⟩
        cases errm with
        | some em =>
          simp only [hm] at h
          have h3 : em = e := Option.some.inj (congrArg Prod.snd h)
          exact h3 ▸ Or.inr (NoC.multicast_err _ _ _ _ _ hm)
        | none =>
          simp only [hm] at h
          exact ih nm n1 e h

/-- `set_filter` on an oversized kernel: the capacity ValueError. -/
theorem set_filter_over (e : Eyeriss) (K : List (List ℚ))
    (hover : K.length > e.noc.rows ∨ (K.headD []).length > e.noc.cols) :
    (e.set_filter K).2 = some .configuration := by
  simp only [Eyeriss.set_filter]
  rw [if_pos (by simp only [Bool.or_eq_true, decide_eq_true_eq]; omega)]

/-- `set_filter` on an in-capacity kernel: whatever happens, it is not
the capacity ValueError — either no raise, or an IndexError or numpy
broadcast ValueError out of the distribution loop. -/
theorem set_filter_post (e : Eyeriss) (K : List (List ℚ))
    (hover : ¬(K.length > e.noc.rows ∨ (K.headD []).length > e.noc.cols)) :
    (e.set_filter K).2 = none ∨ (e.set_filter K).2 = some .index ∨
      (e.set_filter K).2 = some .broadcast := by
  have h1 : ¬ K.length > e.noc.rows := fun hc => hover (Or.inl hc)
  have h2 : ¬ (K.headD []).length > e.noc.cols := fun hc => hover (Or.inr hc)
  simp only [Eyeriss.set_filter]
  rw [if_neg (by simp only [Bool.or_eq_true, decide_eq_true_eq]; omega)]
  rcases hl : sfLoop K (List.range K.length) e.noc with ⟨n1, errl⟩
  cases errl with
  | none =>
    left
    simp only [hl]
  | some el =>
    right
    rcases sfLoop_err K (List.range K.length) e.noc n1 el hl with h | h <;> rw [h] at hl
    · left
      simp only [hl, h]
    · right
      simp only [hl, h]

/-- `set_image` on an over-capacity image: the capacity ValueError. -/
theorem set_image_over (e : Eyeriss) (I : List (List ℚ))
    (hover : I.length > e.noc.rows + e.noc.cols ∨
      (I.length : ℤ) - (e.filter_size.1 : ℤ) > (e.noc.cols : ℤ)) :
    (e.set_image I).2 = some .configuration := by
  by_cases h1 : I.length > e.noc.rows + e.noc.cols
  · simp only [Eyeriss.set_image]
    rw [if_pos (by omega)]
  · have h2 : (I.length : ℤ) - (e.filter_size.1 : ℤ) > (e.noc.cols : ℤ) := by
      rcases hover with h | h
      · exact absurd h h1
      · exact h
    simp only [Eyeriss.set_image]
    rw [if_neg (by omega), if_pos (by omega)]

/-- `set_image` on an in-capacity image: whatever happens, it is not the
capacity ValueError — either no raise, or an IndexError or numpy
broadcast ValueError out of the zero-fill or a distribution loop. -/
theorem set_image_post (e : Eyeriss) (I : List (List ℚ))
    (h1 : I.length ≤ e.noc.rows + e.noc.cols)
    (h2 : (I.length : ℤ) - (e.filter_size.1 : ℤ) ≤ (e.noc.cols : ℤ)) :
    (e.set_image I).2 = none ∨ (e.set_image I).2 = some .index ∨
      (e.set_image I).2 = some .broadcast := by
  simp only [Eyeriss.set_image]
  rw [if_neg (by omega), if_neg (by omega)]
  rcases hs : e.noc.sendAll (.peWriteIfmap (0, 0) (List.replicate (I.headD []).length 0))
    with ⟨n0, err0⟩
  cases err0 with
  | some e0 =>
    right; right
    have h3 : e0 = Err.broadcast := NoC.sendAll_err _ _ _ _ hs
    rw [h3] at hs
    simp only [hs, h3]
  | none =>
    simp only [hs]
    rcases hl1 : siLoop1 I (List.range (min I.length e.filter_size.1)) n0 with ⟨n1, err1⟩
    cases err1 with
    | some e1 =>
      right
      rcases siLoop1_err I _ n0 n1 e1 hl1 with h | h <;> rw [h] at hl1
      · left
        simp only [hl1, h]
      · right
        simp only [hl1, h]
    | none =>
      simp only [hl1]
      by_cases hle : I.length ≤ e.filter_size.1
      · rw [if_pos hle]
        left
        rfl
      · rw [if_neg hle]
        rcases hl2 : siLoop2 I (List.range' e.filter_size.1 (I.length - e.filter_size.1)) n1
          with ⟨n2, err2⟩
        cases err2 with
        | some e2 =>
          right
          rcases siLoop2_err I _ n1 n2 e2 hl2 with h | h <;> rw [h] at hl2
          · left
            simp only [hl2, h]
          · right
            simp only [hl2, h]
        | none =>
          left
          simp only [hl2]

/-- Claim C8, amended: `set_filter` fails with the capacity ValueError
(spec: ConfigurationError) EXACTLY when the kernel's row count exceeds
`rows` or its column count exceeds `cols`, and `set_image` fails with it
EXACTLY when the image's row count exceeds `rows + cols` or its row count
minus the tracked filter row count exceeds `cols`.  But "on shapes within
capacity neither raises" is false: an in-capacity call can still raise —
and the only other raise kinds are the IndexError of the wrap loop's grid
lookup (column `i - rows` below `-cols`) and numpy's broadcast ValueError
at a scratchpad write whose payload width is neither 1 nor the word
width (96 for kernel rows, 16384 for image rows).  The counterexample
`C8_set_image_raises_within_capacity` exhibits an in-capacity
IndexError. -/
theorem C8_amended_capacity_errors (e : Eyeriss) (K I : List (List ℚ)) :
    ((e.set_filter K).2 = some .configuration ↔
      (K.length > e.noc.rows ∨ (K.headD []).length > e.noc.cols)) ∧
    ((e.set_image I).2 = some .configuration ↔
      (I.length > e.noc.rows + e.noc.cols ∨
        (I.length : ℤ) - (e.filter_size.1 : ℤ) > (e.noc.cols : ℤ))) ∧
    (∀ err, (e.set_filter K).2 = some err →
      err = .configuration ∨ err = .index ∨ err = .broadcast) ∧
    (∀ err, (e.set_image I).2 = some err →
      err = .configuration ∨ err = .index ∨ err = .broadcast) := by
  refine ⟨⟨?_, set_filter_over e K⟩, ⟨?_, set_image_over e I⟩, ?_, ?_⟩
  · intro h
    by_contra hover
    rcases set_filter_post e K hover with h0 | h0 | h0 <;> rw [h0] at h <;> simp at h
  · intro h
    by_contra hover
    push_neg at hover
    rcases set_image_post e I (by omega) (by omega) with h0 | h0 | h0 <;>
      rw [h0] at h <;> simp at h
  · intro err h
    by_cases hover : K.length > e.noc.rows ∨ (K.headD []).length > e.noc.cols
    · left
      have h0 := set_filter_over e K hover
      rw [h0] at h
      injection h with h1
      exact h1.symm
    · right
      rcases set_filter_post e K hover with h0 | h0 | h0 <;> rw [h0] at h
      · cases h
      · left
        injection h with h1
        exact h1.symm
      · right
        injection h with h1
        exact h1.symm
  · intro err h
    by_cases hover : I.length > e.noc.rows + e.noc.cols ∨
        (I.length : ℤ) - (e.filter_size.1 : ℤ) > (e.noc.cols : ℤ)
    · left
      have h0 := set_image_over e I hover
      rw [h0] at h
      injection h with h1
      exact h1.symm
    · right
      push_neg at hover
      rcases set_image_post e I (by omega) (by omega) with h0 | h0 | h0 <;> rw [h0] at h
      · cases h
      · left
        injection h with h1
        exact h1.symm
      · right
        injection h with h1
        exact h1.symm

/-- Claim C8, counterexample: on the 4-row × 1-column accelerator with
the 1×1 kernel loaded, the 2×1 image satisfies both capacity bounds
(2 ≤ rows + cols = 5 and 2 - 1 ≤ cols = 1), yet `set_image` raises an
IndexError: the wrap loop looks up grid column 1 - 4 = -3, below the
Python range of a 1-element row. -/
theorem C8_set_image_raises_within_capacity :
    (tallAccel.set_filter [[1]]).2 = none ∧
    ¬ (([[1], [1]] : List (List ℚ)).length > tallAccel.noc.rows + tallAccel.noc.cols) ∧
    ¬ ((([[1], [1]] : List (List ℚ)).length : ℤ) -
        ((tallAccel.set_filter [[1]]).1.filter_size.1 : ℤ) > (tallAccel.noc.cols : ℤ)) ∧
    ((tallAccel.set_filter [[1]]).1.set_image [[1], [1]]).2 = some .index := by
  refine ⟨?_, ?_, ?_, ?_⟩
  · simp [tallAccel, Eyeriss.init, Eyeriss.set_filter, sfLoop, NoC.gatherRow, NoC.multicast,
          NoC.sendAll, peGridCall, peRowCall, NoC.get2, NoC.init, pyGet, pyIdx, PE.init,
          PE.call, List.range_succ]
  · simp [tallAccel, Eyeriss.init, NoC.init]
  · simp [tallAccel, Eyeriss.init, Eyeriss.set_filter, sfLoop, NoC.gatherRow, NoC.multicast,
          NoC.sendAll, peGridCall, peRowCall, NoC.get2, NoC.init, pyGet, pyIdx, PE.init,
          PE.call, List.range_succ]
  · simp [tallAccel, Eyeriss.init, Eyeriss.set_filter, Eyeriss.set_image, sfLoop, siLoop1,
          siLoop2, NoC.gatherRow, NoC.multicast, NoC.sendAll, peGridCall, peRowCall, NoC.get2,
          NoC.set2, NoC.init, NoC.diagonal_connections, pyGet, pyIdx, PE.init, PE.call,
          List.range_succ, List.range'_succ, -List.reduceReplicate]

/-- Claim C8 amended, witness: on the fresh 2×3 accelerator, the
oversized 3×1 kernel is rejected with the capacity ValueError (via the
iff), and that error kind is one of the three the classification
allows. -/
theorem C8_amended_witness :
    (demoAccel.set_filter [[1], [1], [1]]).2 = some .configuration ∧
    (Err.configuration = .configuration ∨ Err.configuration = .index ∨
      Err.configuration = .broadcast) :=
  ⟨(C8_amended_capacity_errors demoAccel [[1], [1], [1]] [[1]]).1.mpr (Or.inl (by decide)),
   (C8_amended_capacity_errors demoAccel [[1], [1], [1]] [[1]]).2.2.1 .configuration
     ((C8_amended_capacity_errors demoAccel [[1], [1], [1]] [[1]]).1.mpr
       (Or.inl (by decide)))⟩

/-! ## Repeat-compute machinery (claim C3)

On the scratchpad geometry the program builds (`PE.stdShape`), the local
convolution's psum write can never succeed (16289-wide data into the
16320-wide word), so a successful COMPUTE pass is one in which every PE
skipped; and the vertical reduction applied to fresh all-zero psum words
rewrites each of them with an equal all-zero row.  Hence a successful
`compute` is the identity on the state. -/

theorem mem_of_get_some {α : Type} : ∀ (l : List α) (i : ℕ) (x : α),
    l.get? i = some x → x ∈ l := by
  intro l
  induction l with
  | nil => intro i x h; cases h
  | cons a tl ih =>
    intro i x h
    cases i with
    | zero =>
      injection h with h1
      rw [← h1]
      exact List.mem_cons_self a tl
    | succ k => exact List.mem_cons_of_mem a (ih k x h)

theorem set_get_some {α : Type} : ∀ (l : List α) (i : ℕ) (x : α),
    l.get? i = some x → l.set i x = l := by
  intro l
  induction l with
  | nil => intro i x h; cases h
  | cons a tl ih =>
    intro i x h
    cases i with
    | zero =>
      injection h with h1
      rw [← h1]
      rfl
    | succ k =>
      simp only [List.set_cons_succ]
      rw [ih k x h]

theorem pyGet_mem {α : Type} (l : List α) (i : ℤ) (x : α) (h : pyGet l i = some x) : x ∈ l := by
  unfold pyGet at h
  rcases h2 : pyIdx l.length i with _ | r <;> rw [h2] at h
  · cases h
  · exact mem_of_get_some _ _ _ h

/-- A successful grid lookup returns a PE of the grid. -/
theorem get2_mem (n : NoC) (a b : ℤ) (pe : PE) (h : n.get2 a b = some pe) :
    ∃ row, row ∈ n.pes ∧ pe ∈ row := by
  unfold NoC.get2 at h
  rcases h1 : pyGet n.pes a with _ | row <;> simp only [h1] at h
  · cases h
  · exact ⟨row, pyGet_mem _ _ _ h1, pyGet_mem _ _ _ h⟩

/-- Resolution of a non-negative in-range Python index. -/
theorem pyIdx_nat (len a : ℕ) (h : a < len) : pyIdx len (a : ℤ) = some a := by
  unfold pyIdx
  rw [if_pos (by omega), if_pos (by omega)]
  simp

/-- In-bounds natural-index lookup: `get2` is a plain nested list read. -/
theorem get2_nat (n : NoC) (hwf : n.wf = true) (a b : ℕ) (ha : a < n.rows) (hb : b < n.cols) :
    n.get2 (a : ℤ) (b : ℤ) = (n.pes.getD a [])[b]? := by
  simp only [NoC.wf, Bool.and_eq_true, beq_iff_eq, List.all_eq_true] at hwf
  obtain ⟨hlen, hall⟩ := hwf
  have ha' : a < n.pes.length := by omega
  have hrow : n.pes[a]? = some n.pes[a] := List.getElem?_eq_getElem ha'
  have hrl : n.pes[a].length = n.cols := by
    have := hall _ (List.getElem_mem ha')
    simpa using this
  unfold NoC.get2 pyGet
  rw [pyIdx_nat _ _ ha']
  simp only [List.get?_eq_getElem?, hrow]
  rw [pyIdx_nat _ _ (by omega)]
  rw [List.getD_eq_getElem _ _ ha']

/-- In-bounds natural-index update: `set2` is a plain nested list update. -/
theorem set2_nat (n : NoC) (hwf : n.wf = true) (r c : ℕ) (hr : r < n.rows) (hc : c < n.cols)
    (pe : PE) :
    n.set2 (r : ℤ) (c : ℤ) pe = { n with pes := n.pes.set r ((n.pes.getD r []).set c pe) } := by
  simp only [NoC.wf, Bool.and_eq_true, beq_iff_eq, List.all_eq_true] at hwf
  obtain ⟨hlen, hall⟩ := hwf
  have hr' : r < n.pes.length := by omega
  have hrow : n.pes[r]? = some n.pes[r] := List.getElem?_eq_getElem hr'
  have hrl : n.pes[r].length = n.cols := by
    have := hall _ (List.getElem_mem hr')
    simpa using this
  unfold NoC.set2
  rw [pyIdx_nat _ _ hr']
  simp only [List.get?_eq_getElem?, hrow]
  rw [pyIdx_nat _ _ (by omega)]
  rw [List.getD_eq_getElem _ _ hr']

/-- Writing back the PE a lookup just returned leaves the grid
unchanged. -/
theorem set2_self (n : NoC) (hwf : n.wf = true) (r c : ℕ) (hr : r < n.rows) (hc : c < n.cols)
    (pe : PE) (hget : n.get2 (r : ℤ) (c : ℤ) = some pe) :
    n.set2 (r : ℤ) (c : ℤ) pe = n := by
  rw [set2_nat n hwf r c hr hc pe]
  rw [get2_nat n hwf r c hr hc] at hget
  have h1 : (n.pes.getD r []).set c pe = n.pes.getD r [] := by
    apply set_get_some
    rw [List.get?_eq_getElem?]
    exact hget
  rw [h1]
  have hr' : r < n.pes.length := by
    simp only [NoC.wf, Bool.and_eq_true, beq_iff_eq, List.all_eq_true] at hwf
    omega
  have h2 : n.pes.set r (n.pes.getD r []) = n.pes := by
    apply set_get_some
    rw [List.getD_eq_getElem _ _ hr', List.get?_eq_getElem?]
    exact List.getElem?_eq_getElem hr'
  rw [h2]

/-- The PEs the constructor builds have the standard geometry. -/
theorem PE.init_stdShape (k : ℕ) : (PE.init k).stdShape :=
  ⟨⟨MemoryBlock.init 1 96 (1 / 1000000000) (1 / 1000000000000),
      List.replicate 96 0, rfl, rfl, by simp only [List.length_replicate]⟩,
   ⟨MemoryBlock.init 1 16384 (1 / 1000000000) (1 / 1000000000000),
      List.replicate 16384 0, rfl, rfl, by simp only [List.length_replicate]⟩,
   rfl⟩

/-- On the standard geometry a PE's COMPUTE step either skips (ifmap or
filter empty, or psum nonempty) or raises at the psum write; when it
returns at all, the PE is unchanged. -/
theorem PE.computeStep_std (pe : PE) (h : pe.stdShape) (pe' : PE)
    (hok : pe.computeStep = .ok pe') : pe' = pe := by
  obtain ⟨⟨bf, rf, hbf, hrbf, hlf⟩, ⟨bi, ri, hbi, hrbi, hli⟩, hp⟩ := h
  unfold PE.computeStep at hok
  by_cases hskip : (pe.ifmap.is_empty || pe.filter.is_empty) = true
  · rw [if_pos hskip] at hok
    exact (Except.ok.inj hok).symm
  · rw [if_neg hskip, if_pos (by rw [hp]; exact SPAD.spadInit_is_empty 1 16320)] at hok
    have hri : pe.ifmap.read (0, 0) = ri := by
      unfold SPAD.read MemoryBlock.read
      rw [hbi]
      simp [hrbi]
    have hrf : pe.filter.read (0, 0) = rf := by
      unfold SPAD.read MemoryBlock.read
      rw [hbf]
      simp [hrbf]
    have hlen : (conv1d (pe.ifmap.read (0, 0)) (pe.filter.read (0, 0))).length = 16289 := by
      rw [hri, hrf]
      simp [conv1d, hli, hlf]
    have hw : pe.psum.write (0, 0) (conv1d (pe.ifmap.read (0, 0)) (pe.filter.read (0, 0))) =
        .error .broadcast := by
      rw [hp]
      exact SPAD.init_write_bad 16320 _ (by omega) (by omega)
    rw [hw] at hok
    cases hok

/-- A PE of the standard geometry that answers COMPUTE without raising
is unchanged. -/
theorem PE.call_compute_std (pe : PE) (h : pe.stdShape) (pe' : PE) (out : Option (List ℚ))
    (hok : pe.call .compute = .ok (pe', out)) : pe' = pe := by
  simp only [PE.call] at hok
  rcases hc : pe.computeStep with e | q <;> simp only [hc] at hok
  · cases hok
  · have hq : q = pe' := congrArg Prod.fst (Except.ok.inj hok)
    rw [← hq]
    exact PE.computeStep_std pe h q hc

/-- A COMPUTE pass over a standard-geometry row that raises nowhere is
the identity. -/
theorem peRowCall_compute_id : ∀ (row : List PE), (∀ pe ∈ row, pe.stdShape) →
    ∀ row', peRowCall row .compute = (row', none) → row' = row := by
  intro row
  induction row with
  | nil =>
    intro _ row' h
    unfold peRowCall at h
    exact (congrArg Prod.fst h).symm
  | cons pe rest ih =>
    intro hstd row' h
    unfold peRowCall at h
    rcases hc : pe.call .compute with e | pr <;> simp only [hc] at h
    · simp at h
    · obtain ⟨pe', out⟩ := pr
      rcases hr : peRowCall rest .compute with ⟨rest', err⟩
      simp only [hr] at h
      have herr : err = none := congrArg Prod.snd h
      rw [herr] at hr
      have hrest : rest' = rest :=
        ih (fun q hq => hstd q (List.mem_cons_of_mem pe hq)) rest' hr
      have hpe : pe' = pe :=
        PE.call_compute_std pe (hstd pe (List.mem_cons_self pe rest)) pe' out hc
      have hfst : pe' :: rest' = row' := congrArg Prod.fst h
      rw [← hfst, hpe, hrest]

/-- A COMPUTE pass over a standard-geometry grid that raises nowhere is
the identity. -/
theorem peGridCall_compute_id : ∀ (g : List (List PE)),
    (∀ row ∈ g, ∀ pe ∈ row, pe.stdShape) →
    ∀ g', peGridCall g .compute = (g', none) → g' = g := by
  intro g
  induction g with
  | nil =>
    intro _ g' h
    unfold peGridCall at h
    exact (congrArg Prod.fst h).symm
  | cons row rest ih =>
    intro hstd g' h
    unfold peGridCall at h
    rcases hr : peRowCall row .compute with ⟨row', errr⟩
    cases errr with
    | some er =>
      simp only [hr] at h
      simp at h
    | none =>
      simp only [hr] at h
      rcases hg : peGridCall rest .compute with ⟨rest', err⟩
      simp only [hg] at h
      have herr : err = none := congrArg Prod.snd h
      rw [herr] at hg
      have h1 : rest' = rest :=
        ih (fun r hrm pe hpe => hstd r (List.mem_cons_of_mem row hrm) pe hpe) rest' hg
      have h2 : row' = row :=
        peRowCall_compute_id row (hstd row (List.mem_cons_self row rest)) row' hr
      have hfst : row' :: rest' = g' := congrArg Prod.fst h
      rw [← hfst, h1, h2]

/-- The NoC-wide COMPUTE pass, when it raises nowhere, is the identity
on a standard-geometry NoC. -/
theorem NoC.sendAll_compute_id (n : NoC) (h : n.stdShape) (n1 : NoC)
    (hs : n.sendAll .compute = (n1, none)) : n1 = n := by
  unfold NoC.sendAll at hs
  rcases hg : peGridCall n.pes .compute with ⟨pes', err⟩
  simp only [hg] at hs
  have herr : err = none := congrArg Prod.snd hs
  rw [herr] at hg
  have h1 : pes' = n.pes := peGridCall_compute_id n.pes h pes' hg
  have hfst : { n with pes := pes' } = n1 := congrArg Prod.fst hs
  rw [← hfst, h1]

/-- One reduction row over a standard-geometry grid is the identity:
every psum read is the all-zero word, the numpy addition of two equal
all-zero rows is the same all-zero row, and the write stores it back
verbatim. -/
theorem redRow_id (n : NoC) (hwf : n.wf = true) (hstd : n.stdShape) (i : ℕ)
    (hi1 : 1 ≤ i) (hi : i < n.rows) :
    ∀ js : List ℕ, (∀ j ∈ js, j < n.cols) → redRow n i js = (n, none) := by
  intro js
  induction js with
  | nil => intro _; rfl
  | cons j rest ih =>
    intro hjs
    have hj : j < n.cols := hjs j (List.mem_cons_self j rest)
    obtain ⟨pe, hpe⟩ := wf_get2 n hwf i (j : ℤ) hi (by omega) (by omega)
    have hcast : ((i - 1 : ℕ) : ℤ) = (i : ℤ) - 1 := by omega
    obtain ⟨dest, hdest⟩ := wf_get2 n hwf (i - 1) (j : ℤ) (by omega) (by omega) (by omega)
    have hdest' : n.get2 ((i : ℤ) - 1) (j : ℤ) = some dest := by rw [← hcast]; exact hdest
    obtain ⟨rowp, hrowp, hpemem⟩ := get2_mem n _ _ pe hpe
    have hpstd := hstd rowp hrowp pe hpemem
    obtain ⟨rowd, hrowd, hdmem⟩ := get2_mem n _ _ dest hdest'
    have hdstd := hstd rowd hrowd dest hdmem
    have hpread : pe.psum.read (0, 0) = List.replicate 16320 0 := by
      rw [hpstd.2.2]
      simp only [Prod.mk_zero_zero, SPAD.read_init]
    have hpcall : pe.call (.peReadPsum (0, 0)) = .ok (pe, some (List.replicate 16320 0)) := by
      simp only [PE.call, hpread]
    have hdread : dest.psum.read (0, 0) = List.replicate 16320 0 := by
      rw [hdstd.2.2]
      simp only [Prod.mk_zero_zero, SPAD.read_init]
    have hdcall : dest.call (.peAddPsum (0, 0) (List.replicate 16320 0)) = .ok (dest, none) := by
      simp only [PE.call, hdread, pyAdd_rep_zero]
      rw [hdstd.2.2, SPAD.init_write_zero_row]
      rw [← hdstd.2.2]
    have hstep : redRow n i (j :: rest) = redRow (n.set2 ((i : ℤ) - 1) (j : ℤ) dest) i rest := by
      simp only [redRow, hpe, hpcall, hdest', Option.getD_some, hdcall]
    have hset : n.set2 ((i : ℤ) - 1) (j : ℤ) dest = n := by
      rw [← hcast]
      exact set2_self n hwf (i - 1) j (by omega) hj dest hdest
    rw [hstep, hset]
    exact ih (fun x hx => hjs x (List.mem_cons_of_mem j hx))

/-- The whole vertical reduction over a standard-geometry grid is the
identity. -/
theorem redLoop_id (n : NoC) (hwf : n.wf = true) (hstd : n.stdShape) :
    ∀ is : List ℕ, (∀ i ∈ is, 1 ≤ i ∧ i < n.rows) → redLoop is n.cols n = (n, none) := by
  intro is
  induction is with
  | nil => intro _; rfl
  | cons i rest ih =>
    intro h
    have hi := h i (List.mem_cons_self i rest)
    have hrr := redRow_id n hwf hstd i hi.1 hi.2 (List.range n.cols)
      (fun j hj => List.mem_range.mp hj)
    simp only [redLoop, hrr]
    exact ih (fun x hx => h x (List.mem_cons_of_mem i hx))

/-- The final psum read-back never raises when row 0 exists and every
listed column is in range (and it performs no writes). -/
theorem gatherPsums_ok (n : NoC) (hwf : n.wf = true) (hr : 1 ≤ n.rows) :
    ∀ js : List ℕ, (∀ j ∈ js, j < n.cols) → ∃ v, gatherPsums n js = .ok v := by
  intro js
  induction js with
  | nil => exact fun _ => ⟨[], rfl⟩
  | cons j rest ih =>
    intro hj
    obtain ⟨pe, hpe⟩ := wf_get2 n hwf 0 (j : ℤ) (by omega) (by omega)
      (by have := hj j (List.mem_cons_self j rest); omega)
    obtain ⟨v, hv⟩ := ih (fun x hx => hj x (List.mem_cons_of_mem j hx))
    rw [Nat.cast_zero] at hpe
    refine ⟨(pe.psum.read (0, 0)) :: v, ?_⟩
    simp [gatherPsums, hpe, hv, PE.call]

/-- Claim C3 (confirmed): repeat `compute()` calls are per-PE idempotent
no-ops.  Setting: a well-formed grid with the scratchpad geometry every
program-built accelerator has (`NoC.stdShape` — an invariant of every
reachable state, see its documentation), at least one grid row, tracked
filter rows within the grid.  If `compute()` succeeds then it leaves the
ENTIRE state unchanged: a successful run means every PE skipped its
local convolution (the convolution's 16289-wide psum write can never
broadcast into the 16320-wide psum word, so a PE attempting it raises
instead of succeeding), and the vertical reduction only rewrites the
all-zero psum words with the same all-zero rows.  Hence the second
`compute()` returns the same result and leaves the psum scratchpad
contents of every PE exactly as they were after the first call. -/
theorem C3_repeat_compute_is_noop (e : Eyeriss) (v : List (List ℚ))
    (hwf : e.noc.wf = true) (hstd : e.noc.stdShape)
    (hrows : 1 ≤ e.noc.rows) (hfr : e.filter_size.1 ≤ e.noc.rows)
    (hsucc : (e.compute none none).2 = .ok v) :
    e.compute none none = (e, .ok v) ∧
    (e.compute none none).1.compute none none = (e, .ok v) ∧
    ∀ a b : ℕ, psumVal ((e.compute none none).1.compute none none).1 a b =
      psumVal (e.compute none none).1 a b := by
  by_cases hready : e.is_ready = false
  · exfalso
    have hx : (e.compute none none).2 = .error .notReady := by
      simp only [Eyeriss.compute]
      rw [if_pos hready]
    rw [hx] at hsucc
    cases hsucc
  · have hready' : e.is_ready = true := by
      revert hready
      cases e.is_ready <;> simp
    rcases hp : e.noc.sendAll .compute with ⟨n1, err1⟩
    cases err1 with
    | some er =>
      exfalso
      have hx : (e.compute none none).2 = .error er := by
        simp only [Eyeriss.compute]
        rw [if_neg (by simp [hready'])]
        simp only [hp]
      rw [hx] at hsucc
      cases hsucc
    | none =>
      have hn1 : n1 = e.noc := NoC.sendAll_compute_id e.noc hstd n1 hp
      rw [hn1] at hp
      have hred := redLoop_id e.noc hwf hstd ((List.range' 1 (e.filter_size.1 - 1)).reverse)
        (fun i hi => by
          rw [List.mem_reverse, List.mem_range'_1] at hi
          omega)
      obtain ⟨w, hw⟩ := gatherPsums_ok e.noc hwf hrows
        (if min ((e.image_size.1 : ℤ) - (e.filter_size.1 : ℤ) + 1) (e.noc.cols : ℤ) ≤ 0 then []
         else List.range
           (min ((e.image_size.1 : ℤ) - (e.filter_size.1 : ℤ) + 1) (e.noc.cols : ℤ)).toNat)
        (by
          intro j hj
          by_cases hns :
              min ((e.image_size.1 : ℤ) - (e.filter_size.1 : ℤ) + 1) (e.noc.cols : ℤ) ≤ 0
          · rw [if_pos hns] at hj
            exact absurd hj (List.not_mem_nil j)
          · rw [if_neg hns] at hj
            have hmem := List.mem_range.mp hj
            have hmin : min ((e.image_size.1 : ℤ) - (e.filter_size.1 : ℤ) + 1) (e.noc.cols : ℤ)
                ≤ (e.noc.cols : ℤ) := min_le_right _ _
            omega)
      have hcomp : e.compute none none = (e, .ok w) := by
        simp only [Eyeriss.compute]
        rw [if_neg (by simp [hready'])]
        simp only [hp, hred, hw]
      have hv : w = v := by
        rw [hcomp] at hsucc
        exact Except.ok.inj hsucc
      rw [hv] at hcomp
      have hcomp2 : (e.compute none none).1.compute none none = (e, .ok v) := by
        rw [hcomp]
        exact hcomp
      exact ⟨hcomp, hcomp2, fun a b => by rw [hcomp2, hcomp]⟩

/-- Claim C3, witness: on the freshly built ready 2×1 accelerator
`witReady` (tracked filter shape (2, 1), image shape (3, 1)), the first
`compute()` succeeds with the single all-zero psum row and the repeated
call returns the identical state and result. -/
theorem C3_repeat_compute_witness :
    witReady.compute none none = (witReady, .ok [List.replicate 16320 0]) ∧
    (witReady.compute none none).1.compute none none =
      (witReady, .ok [List.replicate 16320 0]) := by
  have hstd : witReady.noc.stdShape := by
    intro row hrow pe hpe
    have hpes : witReady.noc.pes = [[PE.init 0], [PE.init 1]] := by
      simp [witReady, NoC.init, List.range_succ]
    rw [hpes] at hrow
    simp only [List.mem_cons, List.not_mem_nil, or_false] at hrow
    rcases hrow with h | h <;>
      (subst h
       simp only [List.mem_cons, List.not_mem_nil, or_false] at hpe
       subst hpe
       exact PE.init_stdShape _)
  have hsucc : (witReady.compute none none).2 = .ok [List.replicate 16320 0] := by
    simp [witReady, Eyeriss.compute, Eyeriss.is_ready, NoC.sendAll, peGridCall, peRowCall,
          PE.call, PE.computeStep, redLoop, redRow, gatherPsums, NoC.get2, NoC.set2, NoC.init,
          pyGet, pyIdx, PE.init, min_def, List.range_succ, List.range'_succ,
          -List.reduceReplicate]
  have h := C3_repeat_compute_is_noop witReady [List.replicate 16320 0]
    (by decide) hstd (by decide) (by decide) hsucc
  exact ⟨h.1, h.2.1⟩
